import Mathlib

/-!
Verification of `update_panos_endoflife.py`: a script that reconciles a JSON
feed of PAN-OS release versions against a changelog-style markdown document.
The Python functions are shallowly embedded as executable Lean definitions
over `List Char` / `String`, and the specification claims are settled as
theorems about those definitions.
-/

namespace PanosVersions

/-- Version tuples `(major, minor, patch, hotfix)`, compared lexicographically. -/
abbrev VTuple := Nat × Nat × Nat × Nat

/-- Value of a nonempty decimal digit run, as Python `int` computes it
(leading zeros allowed). -/
def digitsToNat (l : List Char) : Nat :=
  l.foldl (fun a c => a * 10 + (c.toNat - 48)) 0

/-- Strict lexicographic order on version tuples, the Python `tuple.__gt__`
used as `new_parsed > current_parsed` (with arguments flipped: `vLt a b`
models `b > a`). -/
def vLt (a b : VTuple) : Bool :=
  decide (a.1 < b.1) ||
    (decide (a.1 = b.1) &&
      (decide (a.2.1 < b.2.1) ||
        (decide (a.2.1 = b.2.1) &&
          (decide (a.2.2.1 < b.2.2.1) ||
            (decide (a.2.2.1 = b.2.2.1) && decide (a.2.2.2 < b.2.2.2))))))

/-- The optional `(?:-h(\d+))?$` tail of the version pattern: the remainder
must be empty (hotfix 0) or `-h` followed by a digit run reaching the end. -/
def parseHotfixTail : List Char → Option Nat
  | [] => some 0
  | [_] => none
  | c1 :: c2 :: r7 =>
    if c1 = '-' ∧ c2 = 'h' then
      let d4 := r7.takeWhile Char.isDigit
      if d4.isEmpty then none
      else if (r7.dropWhile Char.isDigit).isEmpty then some (digitsToNat d4)
      else none
    else none

/-- Core of `parse_version`: full match of the pattern
`(\d+)\.(\d+)\.(\d+)(?:-h(\d+))?` against the entire character list. -/
def parseVersionCore (l : List Char) : Option VTuple :=
  let d1 := l.takeWhile Char.isDigit
  if d1.isEmpty then none else
  match l.dropWhile Char.isDigit with
  | c :: r2 =>
    if c = '.' then
      let d2 := r2.takeWhile Char.isDigit
      if d2.isEmpty then none else
      match r2.dropWhile Char.isDigit with
      | c2 :: r4 =>
        if c2 = '.' then
          let d3 := r4.takeWhile Char.isDigit
          if d3.isEmpty then none else
          (parseHotfixTail (r4.dropWhile Char.isDigit)).map
            (fun h4 => (digitsToNat d1, digitsToNat d2, digitsToNat d3, h4))
        else none
      | [] => none
    else none
  | [] => none

/-- `parse_version`: Python `re.match(r"(\d+)\.(\d+)\.(\d+)(?:-h(\d+))?$", s)`.
The `$` anchor matches at the end of the string or just before a newline that
ends the string, so a single trailing newline is tolerated. -/
def parse_version (s : String) : Option VTuple :=
  match parseVersionCore s.data with
  | some t => some t
  | none =>
    match s.data.getLast? with
    | some c => if c = '\n' then parseVersionCore s.data.dropLast else none
    | none => none

/-- The two leading digit runs matched by `re.match(r"(\d+\.\d+)", s)`:
a maximal nonempty digit run, a literal dot, a maximal nonempty digit run. -/
def releaseCycleParts (s : String) : Option (List Char × List Char) :=
  let l := s.data
  let d1 := l.takeWhile Char.isDigit
  if d1.isEmpty then none else
  match l.dropWhile Char.isDigit with
  | c :: rest =>
    if c = '.' then
      let d2 := rest.takeWhile Char.isDigit
      if d2.isEmpty then none else some (d1, d2)
    else none
  | [] => none

/-- `get_release_cycle`: the `major.minor` leading substring, or `None`. -/
def get_release_cycle (s : String) : Option String :=
  (releaseCycleParts s).map (fun p => String.mk (p.1 ++ '.' :: p.2))

/-- Python tuple comparison `(major, minor) >= (lo1, lo2)`. -/
def pairGe (a b : Nat × Nat) : Bool :=
  decide (b.1 < a.1) || (decide (a.1 = b.1) && decide (b.2 ≤ a.2))

/-- Python `str.replace(".", "-")` for the single-character pattern. -/
def dotsToDashes (l : List Char) : String :=
  String.mk (l.map (fun c => if c = '.' then '-' else c))

/-- Python `str.split(sep)` for a one-character separator: split at every
occurrence, keeping empty pieces; the result is always nonempty. -/
def splitOnChar (sep : Char) : List Char → List (List Char)
  | [] => [[]]
  | c :: cs =>
    if c = sep then [] :: splitOnChar sep cs
    else
      match splitOnChar sep cs with
      | h :: t => (c :: h) :: t
      | [] => [[c]]

/-- `build_release_notes_url`: derive the release-notes URL from a version
string with cycle-dependent templates, or `None` for cycles below 8.1. -/
def build_release_notes_url (version_str : String) : Option String :=
  match releaseCycleParts version_str with
  | none => none
  | some (d1, d2) =>
    let major := digitsToNat d1
    let minor := digitsToNat d2
    let cycle_dashed := toString major ++ "-" ++ toString minor
    let parts := splitOnChar '-' version_str.data
    let base_version := parts.headD []
    let hotfix : Option (List Char) :=
      match parts with
      | _ :: h :: _ => some h
      | _ => none
    let base_dashed := dotsToDashes base_version
    let full_dashed :=
      match hotfix with
      | some h => if h = [] then base_dashed else base_dashed ++ "-" ++ String.mk h
      | none => base_dashed
    if pairGe (major, minor) (12, 1) then
      some ("https://docs.paloaltonetworks.com/ngfw/release-notes/" ++ cycle_dashed ++
        ("/pan-os-" ++ base_dashed ++ "-known-and-addressed-issues" ++
          ("/pan-os-" ++ full_dashed ++ "-addressed-issues")))
    else if pairGe (major, minor) (10, 1) then
      some ("https://docs.paloaltonetworks.com/pan-os/" ++ cycle_dashed ++
        ("/pan-os-release-notes" ++
          ("/pan-os-" ++ base_dashed ++ "-known-and-addressed-issues" ++
            ("/pan-os-" ++ full_dashed ++ "-addressed-issues"))))
    else if pairGe (major, minor) (8, 1) then
      some ("https://docs.paloaltonetworks.com/pan-os/" ++ cycle_dashed ++
        ("/pan-os-release-notes" ++
          ("/pan-os-" ++ cycle_dashed ++ "-addressed-issues" ++
            ("/pan-os-" ++ full_dashed ++ "-addressed-issues"))))
    else none

/-- Gregorian leap-year test, as `datetime` validates dates. -/
def isLeap (y : Nat) : Bool :=
  y % 4 = 0 && (y % 100 ≠ 0 || y % 400 = 0)

/-- Number of days in a month, as `datetime` validates dates. -/
def daysInMonth (y m : Nat) : Nat :=
  if m = 2 then (if isLeap y then 29 else 28)
  else if m = 4 ∨ m = 6 ∨ m = 9 ∨ m = 11 then 30
  else 31

/-- Zero-pad a number to two decimal digits, as `strftime("%m")` / `%d` do. -/
def pad2 (n : Nat) : String :=
  if n < 10 then "0" ++ toString n else toString n

/-- Zero-pad a number to four decimal digits, as `strftime("%Y")` does. -/
def pad4 (n : Nat) : String :=
  if n < 10 then "000" ++ toString n
  else if n < 100 then "00" ++ toString n
  else if n < 1000 then "0" ++ toString n
  else toString n

/-- Read one or two leading decimal digits (greedy), as the `strptime`
field patterns for `%m`, `%d`, `%H`, `%M`, `%S` do. -/
def take2Digits (l : List Char) : Option (Nat × List Char) :=
  match l with
  | [] => none
  | c1 :: rest =>
    if c1.isDigit then
      match rest with
      | c2 :: rest2 =>
        if c2.isDigit then some (digitsToNat [c1, c2], rest2)
        else some (digitsToNat [c1], rest)
      | [] => some (digitsToNat [c1], [])
    else none

/-- `datetime.strptime(s, "%Y/%m/%d %H:%M:%S").strftime("%Y-%m-%d")`:
parse and validate a feed timestamp, produce the `YYYY-MM-DD` date, or
`None` where Python raises `ValueError`. -/
def normalize_date (s : String) : Option String :=
  match s.data with
  | y1 :: y2 :: y3 :: y4 :: '/' :: r1 =>
    if y1.isDigit && y2.isDigit && y3.isDigit && y4.isDigit then
      let y := digitsToNat [y1, y2, y3, y4]
      match take2Digits r1 with
      | some (mo, '/' :: r2) =>
        match take2Digits r2 with
        | some (d, ' ' :: r3) =>
          match take2Digits r3 with
          | some (h, ':' :: r4) =>
            match take2Digits r4 with
            | some (mi, ':' :: r5) =>
              match take2Digits r5 with
              | some (sec, []) =>
                if 1 ≤ y ∧ 1 ≤ mo ∧ mo ≤ 12 ∧ 1 ≤ d ∧ d ≤ daysInMonth y mo ∧
                    h ≤ 23 ∧ mi ≤ 59 ∧ sec ≤ 59 then
                  some (pad4 y ++ "-" ++ pad2 mo ++ "-" ++ pad2 d)
                else none
              | _ => none
            | _ => none
          | _ => none
        | _ => none
      | _ => none
    else none
  | _ => none

/-- The per-cycle mapping built by `load_json_versions`:
cycle string to `(version, normalized date)`. Python dict lookups are
modelled by association-list lookup; keys are unique by construction. -/
abbrev CycleMap := List (String × String × String)

/-- Replace the value stored under a key, keeping the entry position,
as assigning to an existing Python dict key does. -/
def replaceValue (k : String) (v : String × String) : CycleMap → CycleMap
  | [] => []
  | (k0, v0) :: rest =>
    if k0 = k then (k0, v) :: rest else (k0, v0) :: replaceValue k v rest

/-- One iteration of the loop in `load_json_versions` over a feed entry
`(version, released-on)`. `none` models the uncaught `ValueError` /
`TypeError` that aborts the run. -/
def load_step (m : CycleMap) (e : String × String) : Option CycleMap :=
  match parse_version e.1 with
  | none => some m
  | some parsed =>
    match get_release_cycle e.1 with
    | none => some m
    | some cycle =>
      match normalize_date e.2 with
      | none => none
      | some nd =>
        match m.lookup cycle with
        | none => some (m ++ [(cycle, (e.1, nd))])
        | some (sv, _) =>
          match parse_version sv with
          | none => none
          | some sp =>
            if vLt sp parsed then some (replaceValue cycle (e.1, nd) m)
            else some m

/-- `load_json_versions`: fold the feed entries into the per-cycle map of
highest versions; `none` when a parseable entry has a malformed timestamp. -/
def load_json_versions (entries : List (String × String)) : Option CycleMap :=
  entries.foldlM load_step []

/-- One parsed release block of the markdown document
(`parse_md_releases` output row). -/
structure MdRelease where
  releaseCycle : String
  latest : Option String
  latestReleaseDate : Option String
  link : Option String
  startOff : Nat
  endOff : Nat
  text : String
deriving DecidableEq, Repr

/-- Characters Python `str.strip()` removes (ASCII whitespace). -/
def isPySpace (c : Char) : Bool :=
  c = ' ' || c = '\t' || c = '\n' || c = '\r' || c = '\x0b' || c = '\x0c'

/-- Python `str.strip()` on a character list. -/
def pyStrip (l : List Char) : List Char :=
  ((l.dropWhile isPySpace).reverse.dropWhile isPySpace).reverse

/-- Python `str.strip('"')`: remove all leading and trailing quote characters. -/
def stripQuotes (l : List Char) : List Char :=
  ((l.dropWhile (fun c => c = '"')).reverse.dropWhile (fun c => c = '"')).reverse

/-- First match of `re.search(rf"    {field}: (.+)", text)`: scan for the
literal followed by at least one non-newline character, return the rest of
that line. -/
def extractAux (lit : List Char) : List Char → Option (List Char)
  | [] => none
  | c :: cs =>
    if lit.isPrefixOf (c :: cs) then
      match (c :: cs).drop lit.length with
      | d :: ds =>
        if d = '\n' then extractAux lit cs
        else some ((d :: ds).takeWhile (fun x => x ≠ '\n'))
      | [] => extractAux lit cs
    else extractAux lit cs

/-- The nested `extract` helper of `parse_md_releases`: field value with
whitespace stripped, then surrounding quotes stripped. -/
def extractField (field : String) (text : List Char) : Option String :=
  (extractAux ("    " ++ field ++ ": ").data text).map
    (fun v => String.mk (stripQuotes (pyStrip v)))

/-- Offset of the first position whose suffix starts with a block terminator,
the lookahead `(?=\n  - releaseCycle:|\n---)`. -/
def findTerm : List Char → Option Nat
  | [] => none
  | c :: cs =>
    if ("\n  - releaseCycle:".data.isPrefixOf (c :: cs)) ||
        ("\n---".data.isPrefixOf (c :: cs)) then some 0
    else (findTerm cs).map (· + 1)

/-- Attempt the block regex
`  - releaseCycle: "([^"]+)".*?(?=\n  - releaseCycle:|\n---)` at the head of
`l`; on success return the match length and the captured cycle. -/
def tryBlockMatch (l : List Char) : Option (Nat × String) :=
  let lit := "  - releaseCycle: \"".data
  if lit.isPrefixOf l then
    let r := l.drop lit.length
    let q := r.takeWhile (fun c => decide (c ≠ '"'))
    if q.isEmpty then none
    else
      match r.dropWhile (fun c => decide (c ≠ '"')) with
      | '"' :: tail =>
        match findTerm tail with
        | some k => some (lit.length + q.length + 1 + k, String.mk q)
        | none => none
      | _ => none
  else none

/-- Build the `MdRelease` record for a matched block. -/
def mkRelease (pos len : Nat) (cyc : String) (text : List Char) : MdRelease :=
  { releaseCycle := cyc
    latest := extractField "latest" text
    latestReleaseDate := extractField "latestReleaseDate" text
    link := extractField "link" text
    startOff := pos
    endOff := pos + len
    text := String.mk text }

/-- `re.finditer` scan for block matches: try the anchored pattern at every
line start, emit a match and continue at its end; `atStart` tracks whether
the current position follows a newline (the `MULTILINE` caret). Fuel is the
remaining character count; every step consumes at least one character. -/
def mdScanAux : Nat → Nat → Bool → List Char → List MdRelease
  | 0, _, _, _ => []
  | _ + 1, _, _, [] => []
  | fuel + 1, pos, atStart, c :: cs =>
    if atStart then
      match tryBlockMatch (c :: cs) with
      | some (len, cyc) =>
        let text := (c :: cs).take len
        mkRelease pos len cyc text ::
          mdScanAux fuel (pos + len) (decide (text.getLast? = some '\n'))
            ((c :: cs).drop len)
      | none => mdScanAux fuel (pos + 1) (decide (c = '\n')) cs
    else mdScanAux fuel (pos + 1) (decide (c = '\n')) cs

/-- `parse_md_releases`: all block matches of the document, in text order,
with their offsets. -/
def parse_md_releases (content : String) : List MdRelease :=
  mdScanAux content.data.length 0 true content.data

/-- Generic `re.sub` loop: at each position try a matcher; on a match emit
its replacement and continue after the matched text, otherwise keep the
character. Fuel is the character count; matches consume at least one
character. -/
def subAllAux (tryM : List Char → Option (List Char × List Char)) :
    Nat → List Char → List Char
  | 0, l => l
  | _ + 1, [] => []
  | fuel + 1, c :: cs =>
    match tryM (c :: cs) with
    | some (repl, rest) => repl ++ subAllAux tryM fuel rest
    | none => c :: subAllAux tryM fuel cs

/-- `re.sub` over a whole character list. -/
def pySubAll (tryM : List Char → Option (List Char × List Char))
    (l : List Char) : List Char :=
  subAllAux tryM l.length l

/-- Matcher for `(    latest: )"[^"]*"` with replacement
`\g<1>"{new_version}"`. -/
def tryLatestAt (nv : List Char) (l : List Char) : Option (List Char × List Char) :=
  let lit := "    latest: \"".data
  if lit.isPrefixOf l then
    let r := l.drop lit.length
    match r.dropWhile (fun c => decide (c ≠ '"')) with
    | '"' :: rest => some (lit ++ (nv ++ ['"']), rest)
    | _ => none
  else none

/-- Matcher for `(<lit>)\S+` with replacement `\g<1><repl>`, used for the
`latestReleaseDate` and `link` substitutions. -/
def tryFieldSpaceAt (lit repl : List Char) (l : List Char) :
    Option (List Char × List Char) :=
  if lit.isPrefixOf l then
    let r := l.drop lit.length
    let w := r.takeWhile (fun c => !(isPySpace c))
    if w.isEmpty then none
    else some (lit ++ repl, r.dropWhile (fun c => !(isPySpace c)))
  else none

/-- The block-rewriting part of one `apply_updates` iteration: substitute the
`latest` value, the `latestReleaseDate` value, and — when a URL was built and
the block text contains `    link:` — the `link` value. -/
def rewrite_block (block : String) (nv nd : String) (nu : Option String) : String :=
  let b1 := pySubAll (tryLatestAt nv.data) block.data
  let b2 := pySubAll (tryFieldSpaceAt "    latestReleaseDate: ".data nd.data) b1
  let b3 :=
    match nu with
    | some url =>
      if "    link:".data <:+: b2 then
        pySubAll (tryFieldSpaceAt "    link: ".data url.data) b2
      else b2
    | none => b2
  String.mk b3

/-- `content[:s] + repl + content[e:]`. -/
def spliceAt (content : String) (s e : Nat) (repl : String) : String :=
  String.mk (content.data.take s ++ repl.data ++ content.data.drop e)

/-- One iteration of the `apply_updates` loop over a block. The result is
`none` exactly where Python raises: comparing the parsed candidate with the
unparseable (`None`) parse of a nonempty current version is a `TypeError`. -/
def apply_step (json_cycles : CycleMap) (acc : String × List String)
    (release : MdRelease) : Option (String × List String) :=
  match json_cycles.lookup release.releaseCycle with
  | none => some acc
  | some (new_version, new_date) =>
    let current_version := release.latest.getD ""
    let current_parsed : Option VTuple :=
      if current_version = "" then some (0, 0, 0, 0)
      else parse_version current_version
    match parse_version new_version with
    | none => some acc
    | some np =>
      match current_parsed with
      | none => none
      | some cp =>
        if vLt cp np then
          let new_url := build_release_notes_url new_version
          let updated_block := rewrite_block release.text new_version new_date new_url
          let content1 := spliceAt acc.1 release.startOff release.endOff updated_block
          some (content1, acc.2 ++
            [release.releaseCycle ++ ": " ++ current_version ++ " -> " ++ new_version])
        else some acc

/-- `apply_updates`: process blocks in reverse document order, splicing
rewritten text and accumulating change descriptions. -/
def apply_updates (content : String) (releases : List MdRelease)
    (json_cycles : CycleMap) : Option (String × List String) :=
  releases.reverse.foldlM (apply_step json_cycles) (content, [])

/-- Observable outcome of `main`: the marker printed, the change lines
printed, the file content written (if any), and the exit code. -/
structure RunOutcome where
  marker : String
  changeLines : List String
  written : Option String
  exitCode : Nat
deriving DecidableEq, Repr

/-- The decision logic of `main` after loading inputs: run the parser and
patcher, then signal `NO_UPDATES` (nothing written) or `UPDATES_FOUND`
(file written, one line per change). `none` models an uncaught exception
(nonzero exit). -/
def main_outcome (json_cycles : CycleMap) (content : String) : Option RunOutcome :=
  match apply_updates content (parse_md_releases content) json_cycles with
  | none => none
  | some (updated, changes) =>
    if changes.isEmpty then some ⟨"NO_UPDATES", [], none, 0⟩
    else some ⟨"UPDATES_FOUND", changes, some updated, 0⟩

/-! ### Order lemmas for version tuples -/

lemma vLt_iff (a b : VTuple) : vLt a b = true ↔
    (a.1 < b.1 ∨ (a.1 = b.1 ∧ (a.2.1 < b.2.1 ∨ (a.2.1 = b.2.1 ∧
      (a.2.2.1 < b.2.2.1 ∨ (a.2.2.1 = b.2.2.1 ∧ a.2.2.2 < b.2.2.2)))))) := by
  simp [vLt, Bool.or_eq_true, Bool.and_eq_true, decide_eq_true_eq]

lemma vLt_irrefl (a : VTuple) : vLt a a = false := by
  obtain ⟨a1, a2, a3, a4⟩ := a
  simp [vLt]

lemma vLt_trans {a b c : VTuple} (h1 : vLt a b = true) (h2 : vLt b c = true) :
    vLt a c = true := by
  obtain ⟨a1, a2, a3, a4⟩ := a
  obtain ⟨b1, b2, b3, b4⟩ := b
  obtain ⟨c1, c2, c3, c4⟩ := c
  rw [vLt_iff] at h1 h2 ⊢
  omega

lemma vLt_le_lt_trans {a b c : VTuple} (h1 : vLt b a = false) (h2 : vLt b c = true) :
    vLt a c = true := by
  obtain ⟨a1, a2, a3, a4⟩ := a
  obtain ⟨b1, b2, b3, b4⟩ := b
  obtain ⟨c1, c2, c3, c4⟩ := c
  rw [vLt_iff] at h2 ⊢
  rw [← Bool.not_eq_true, vLt_iff] at h1
  omega

/-! ### Characterization of version-string parsing -/

/-- All characters of a list are decimal digits. -/
def allDigits (l : List Char) : Bool := l.all Char.isDigit

/-- The version pattern as the spec states it: the whole string is
`\d+\.\d+\.\d+`, optionally followed by `-h\d+`, together with the tuple
the spec assigns to it (hotfix defaulting to 0 when the suffix is absent). -/
def specVersionShape (l : List Char) (t : VTuple) : Prop :=
  ∃ d1 d2 d3 tail : List Char,
    l = d1 ++ '.' :: (d2 ++ '.' :: (d3 ++ tail)) ∧
    d1 ≠ [] ∧ d2 ≠ [] ∧ d3 ≠ [] ∧
    allDigits d1 = true ∧ allDigits d2 = true ∧ allDigits d3 = true ∧
    ((tail = [] ∧ t = (digitsToNat d1, digitsToNat d2, digitsToNat d3, 0)) ∨
      (∃ d4, tail = '-' :: 'h' :: d4 ∧ d4 ≠ [] ∧ allDigits d4 = true ∧
        t = (digitsToNat d1, digitsToNat d2, digitsToNat d3, digitsToNat d4)))

lemma takeWhile_digits_append {d : List Char} {c : Char} (r : List Char)
    (hd : allDigits d = true) (hc : c.isDigit = false) :
    (d ++ c :: r).takeWhile Char.isDigit = d ∧
    (d ++ c :: r).dropWhile Char.isDigit = c :: r := by
  induction d with
  | nil => simp [List.takeWhile_cons, List.dropWhile_cons, hc]
  | cons x xs ih =>
    rw [allDigits, List.all_cons, Bool.and_eq_true] at hd
    have h2 := ih hd.2
    simp only [List.cons_append, List.takeWhile_cons, List.dropWhile_cons, hd.1,
      if_true, h2.1, h2.2, and_self]

lemma allDigits_takeWhile (l : List Char) :
    allDigits (l.takeWhile Char.isDigit) = true := by
  rw [allDigits, List.all_eq_true]
  exact fun x hx => List.mem_takeWhile_imp hx

lemma allDigits_mem {l : List Char} (h : allDigits l = true) :
    ∀ x ∈ l, x.isDigit = true := by
  rw [allDigits] at h
  exact List.all_eq_true.mp h

lemma parseHotfixTail_eq_some_iff {tail : List Char} {h4 : Nat} :
    parseHotfixTail tail = some h4 ↔
      ((tail = [] ∧ h4 = 0) ∨
        ∃ d4, tail = '-' :: 'h' :: d4 ∧ d4 ≠ [] ∧ allDigits d4 = true ∧
          h4 = digitsToNat d4) := by
  cases tail with
  | nil =>
    constructor
    · intro h
      exact Or.inl ⟨rfl, (Option.some_inj.mp h).symm⟩
    · rintro (⟨_, hh⟩ | ⟨d4, habs, _, _, _⟩)
      · show some 0 = some h4
        rw [hh]
      · exact absurd habs (by simp)
  | cons c1 cs =>
    cases cs with
    | nil =>
      constructor
      · intro h
        have hn : (none : Option Nat) = some h4 := h
        exact Option.noConfusion hn
      · rintro (⟨habs, _⟩ | ⟨d4, habs, _, _, _⟩) <;> simp at habs
    | cons c2 r7 =>
      simp only [parseHotfixTail]
      by_cases hch : c1 = '-' ∧ c2 = 'h'
      · rw [if_pos hch]
        obtain ⟨hc1, hc2⟩ := hch
        subst hc1
        subst hc2
        constructor
        · intro h
          split at h
          · exact absurd h (by simp)
          · rename_i hne4
            split at h
            · rename_i hemp
              have hr7 : r7 = r7.takeWhile Char.isDigit := by
                conv_lhs =>
                  rw [← List.takeWhile_append_dropWhile (p := Char.isDigit) (l := r7)]
                rw [List.isEmpty_iff.mp hemp, List.append_nil]
              refine Or.inr ⟨r7.takeWhile Char.isDigit, by rw [← hr7],
                by simpa [List.isEmpty_iff] using hne4,
                allDigits_takeWhile r7, (Option.some_inj.mp h).symm⟩
            · exact absurd h (by simp)
        · rintro (⟨habs, _⟩ | ⟨d4, heq, hne, ha, hh⟩)
          · exact absurd habs (by simp)
          · have hr : r7 = d4 := by
              injection heq with _ h1
              injection h1
            subst hr
            rw [List.takeWhile_eq_self_iff.mpr (allDigits_mem ha),
              List.isEmpty_eq_false.mpr hne,
              List.dropWhile_eq_nil_iff.mpr (allDigits_mem ha)]
            simp [hh]
      · rw [if_neg hch]
        constructor
        · intro h
          exact absurd h (by simp)
        · rintro (⟨habs, _⟩ | ⟨d4, heq, _, _, _⟩)
          · exact absurd habs (by simp)
          · refine absurd ?_ hch
            injection heq with e1 h1
            injection h1 with e2 _
            exact ⟨e1, e2⟩

lemma parseVersionCore_eq_some_iff {l : List Char} {t : VTuple} :
    parseVersionCore l = some t ↔ specVersionShape l t := by
  constructor
  · intro h
    unfold parseVersionCore at h
    dsimp only at h
    split at h
    · exact absurd h (by simp)
    rename_i hne1
    split at h
    case h_2 => exact absurd h (by simp)
    rename_i c r2 hdrop1
    split at h
    case isFalse => exact absurd h (by simp)
    rename_i hc
    subst hc
    split at h
    · exact absurd h (by simp)
    rename_i hne2
    split at h
    case h_2 => exact absurd h (by simp)
    rename_i c2 r4 hdrop2
    split at h
    case isFalse => exact absurd h (by simp)
    rename_i hc2
    subst hc2
    split at h
    · exact absurd h (by simp)
    rename_i hne3
    obtain ⟨h4, hht, hft⟩ := Option.map_eq_some'.mp h
    have hd1 : l.takeWhile Char.isDigit ≠ [] := by
      simpa [List.isEmpty_iff] using hne1
    have hd2 : r2.takeWhile Char.isDigit ≠ [] := by
      simpa [List.isEmpty_iff] using hne2
    have hd3 : r4.takeWhile Char.isDigit ≠ [] := by
      simpa [List.isEmpty_iff] using hne3
    have hl1 : l = l.takeWhile Char.isDigit ++ '.' :: r2 := by
      conv_lhs => rw [← List.takeWhile_append_dropWhile (p := Char.isDigit) (l := l)]
      rw [hdrop1]
    have hl2 : r2 = r2.takeWhile Char.isDigit ++ '.' :: r4 := by
      conv_lhs => rw [← List.takeWhile_append_dropWhile (p := Char.isDigit) (l := r2)]
      rw [hdrop2]
    rcases parseHotfixTail_eq_some_iff.mp hht with ⟨htail, hh0⟩ | ⟨d4, htail, hne4, ha4, hh4⟩
    · have hr4 : r4 = r4.takeWhile Char.isDigit := by
        conv_lhs => rw [← List.takeWhile_append_dropWhile (p := Char.isDigit) (l := r4)]
        rw [htail, List.append_nil]
      refine ⟨l.takeWhile Char.isDigit, r2.takeWhile Char.isDigit,
        r4.takeWhile Char.isDigit, [], ?_, hd1, hd2, hd3,
        allDigits_takeWhile l, allDigits_takeWhile r2, allDigits_takeWhile r4,
        Or.inl ⟨rfl, ?_⟩⟩
      · conv_lhs => rw [hl1]
        rw [List.append_nil, ← hr4, ← hl2]
      · rw [← hft, hh0]
    · have hr4 : r4 = r4.takeWhile Char.isDigit ++ '-' :: 'h' :: d4 := by
        conv_lhs => rw [← List.takeWhile_append_dropWhile (p := Char.isDigit) (l := r4)]
        rw [htail]
      refine ⟨l.takeWhile Char.isDigit, r2.takeWhile Char.isDigit,
        r4.takeWhile Char.isDigit, '-' :: 'h' :: d4, ?_, hd1, hd2, hd3,
        allDigits_takeWhile l, allDigits_takeWhile r2, allDigits_takeWhile r4,
        Or.inr ⟨d4, rfl, hne4, ha4, ?_⟩⟩
      · conv_lhs => rw [hl1]
        rw [← hr4, ← hl2]
      · rw [← hft, hh4]
  · rintro ⟨d1, d2, d3, tail, hl, h1, h2, h3, ha1, ha2, ha3, hcase⟩
    have hdot : ('.' : Char).isDigit = false := by decide
    have s1 := takeWhile_digits_append (d2 ++ '.' :: (d3 ++ tail)) ha1 hdot
    have s2 := takeWhile_digits_append (d3 ++ tail) ha2 hdot
    unfold parseVersionCore
    dsimp only
    rw [hl, s1.1, s1.2, List.isEmpty_eq_false.mpr h1]
    simp only [Bool.false_eq_true, if_false, eq_self_iff_true, if_true]
    rw [s2.1, s2.2, List.isEmpty_eq_false.mpr h2]
    simp only [Bool.false_eq_true, if_false, eq_self_iff_true, if_true]
    rcases hcase with ⟨htail, ht⟩ | ⟨d4, htail, h4, ha4, ht⟩
    · subst htail
      rw [List.append_nil,
        List.takeWhile_eq_self_iff.mpr (allDigits_mem ha3),
        List.isEmpty_eq_false.mpr h3,
        List.dropWhile_eq_nil_iff.mpr (allDigits_mem ha3)]
      simp [parseHotfixTail, ht]
    · subst htail
      have hdash : ('-' : Char).isDigit = false := by decide
      have s3 := takeWhile_digits_append ('h' :: d4) ha3 hdash
      rw [s3.1, s3.2, List.isEmpty_eq_false.mpr h3]
      have hpt : parseHotfixTail ('-' :: 'h' :: d4) = some (digitsToNat d4) := by
        simp only [parseHotfixTail, eq_self_iff_true, and_self, if_true]
        rw [List.takeWhile_eq_self_iff.mpr (allDigits_mem ha4),
          List.isEmpty_eq_false.mpr h4,
          List.dropWhile_eq_nil_iff.mpr (allDigits_mem ha4)]
        simp
      rw [hpt]
      simp [ht]

lemma getLast?_append_ne_nil {a b : List Char} (hb : b ≠ []) :
    (a ++ b).getLast? = b.getLast? := by
  rw [List.getLast?_append]
  cases hbl : b.getLast? with
  | none => exact absurd (List.getLast?_eq_none_iff.mp hbl) hb
  | some x => rfl

lemma getLast?_cons_ne_nil {c : Char} {b : List Char} (hb : b ≠ []) :
    (c :: b).getLast? = b.getLast? :=
  getLast?_append_ne_nil (a := [c]) hb

lemma specVersionShape_getLast {l : List Char} {t : VTuple}
    (h : specVersionShape l t) : ∃ c, l.getLast? = some c ∧ c.isDigit = true := by
  obtain ⟨d1, d2, d3, tail, hl, h1, h2, h3, ha1, ha2, ha3, hcase⟩ := h
  have hlast : ∀ (d : List Char), d ≠ [] → allDigits d = true →
      ∃ c, d.getLast? = some c ∧ c.isDigit = true := by
    intro d hd ha
    refine ⟨d.getLast hd, List.getLast?_eq_getLast d hd, ?_⟩
    exact allDigits_mem ha _ (List.getLast_mem hd)
  rcases hcase with ⟨htail, _⟩ | ⟨d4, htail, h4, ha4, _⟩
  · subst htail
    obtain ⟨c, hc, hcd⟩ := hlast d3 h3 ha3
    refine ⟨c, ?_, hcd⟩
    rw [hl, List.append_nil,
      getLast?_append_ne_nil (by simp),
      getLast?_cons_ne_nil (by simp),
      getLast?_append_ne_nil (by simp),
      getLast?_cons_ne_nil h3, hc]
  · subst htail
    obtain ⟨c, hc, hcd⟩ := hlast d4 h4 ha4
    refine ⟨c, ?_, hcd⟩
    rw [hl,
      getLast?_append_ne_nil (by simp),
      getLast?_cons_ne_nil (by simp),
      getLast?_append_ne_nil (by simp),
      getLast?_cons_ne_nil (by simp),
      getLast?_append_ne_nil (by simp),
      getLast?_cons_ne_nil (by simp),
      getLast?_cons_ne_nil h4, hc]

lemma parse_version_eq_some_iff {s : String} {t : VTuple} :
    parse_version s = some t ↔
      (specVersionShape s.data t ∨
        (s.data.getLast? = some '\n' ∧ specVersionShape s.data.dropLast t)) := by
  constructor
  · intro h
    unfold parse_version at h
    split at h
    · rename_i t0 hcore
      exact Or.inl (parseVersionCore_eq_some_iff.mp (hcore.trans h))
    · rename_i hcore
      split at h
      · rename_i c hlast
        split at h
        · rename_i hc
          subst hc
          exact Or.inr ⟨hlast, parseVersionCore_eq_some_iff.mp h⟩
        · exact absurd h (by simp)
      · exact absurd h (by simp)
  · intro h
    rcases h with h | ⟨hlast, hshape⟩
    · have hcore := parseVersionCore_eq_some_iff.mpr h
      unfold parse_version
      rw [hcore]
    · have hcore := parseVersionCore_eq_some_iff.mpr hshape
      have hnone : parseVersionCore s.data = none := by
        cases hfull : parseVersionCore s.data with
        | none => rfl
        | some t0 =>
          obtain ⟨c, hc, hcd⟩ :=
            specVersionShape_getLast (parseVersionCore_eq_some_iff.mp hfull)
          rw [hlast] at hc
          cases hc
          exact absurd hcd (by decide)
      unfold parse_version
      rw [hnone, hlast]
      show (if ('\n' : Char) = '\n' then parseVersionCore s.data.dropLast else none) =
        some t
      rw [if_pos rfl]
      exact hcore

/-! ### Claim C5: the domain of `parse_version` -/

/-- C5 counterexample: `parse_version` accepts `"12.1.4\n"` — a string that
does not match `major.minor.patch` with an optional `-hN` suffix — because
the Python `$` anchor also matches just before a string-final newline, so
the set of accepted strings is strictly larger than the claim states. -/
theorem C5_trailing_newline_cex :
    parse_version "12.1.4\n" = some (12, 1, 4, 0) ∧
    ∀ t : VTuple, ¬ specVersionShape "12.1.4\n".data t := by
  refine ⟨by decide, ?_⟩
  intro t hs
  have h := parseVersionCore_eq_some_iff.mpr hs
  have hn : parseVersionCore "12.1.4\n".data = none := by decide
  rw [hn] at h
  exact Option.noConfusion h

/-- C5 amended: `parse_version` returns a tuple for exactly the strings that
match `\d+\.\d+\.\d+(-h\d+)?` either in full or after discarding one
string-final newline (Python `$` semantics); hotfix defaults to 0, every
other string yields `none` (no error), and the documented examples hold. -/
theorem C5_amended_parse_version_domain :
    (∀ (s : String) (t : VTuple), parse_version s = some t ↔
      (specVersionShape s.data t ∨
        (s.data.getLast? = some '\n' ∧ specVersionShape s.data.dropLast t))) ∧
    parse_version "12.1.4-h2" = some (12, 1, 4, 2) ∧
    parse_version "12.1.4" = some (12, 1, 4, 0) ∧
    parse_version "10.2.10-h31" = some (10, 2, 10, 31) ∧
    parse_version "12.1" = none ∧
    parse_version "12.1.4-g2" = none :=
  ⟨fun _ _ => parse_version_eq_some_iff, by decide, by decide, by decide,
    by decide, by decide⟩

/-! ### Claim C9: release cycle of every parseable version -/

lemma releaseCycleParts_of_shape {s : String} {d1 d2 : List Char} (Y : List Char)
    (h : s.data = d1 ++ '.' :: (d2 ++ '.' :: Y))
    (h1 : d1 ≠ []) (h2 : d2 ≠ [])
    (ha1 : allDigits d1 = true) (ha2 : allDigits d2 = true) :
    releaseCycleParts s = some (d1, d2) := by
  have hdot : ('.' : Char).isDigit = false := by decide
  have s1 := takeWhile_digits_append (d2 ++ '.' :: Y) ha1 hdot
  have s2 := takeWhile_digits_append Y ha2 hdot
  unfold releaseCycleParts
  dsimp only
  rw [h, s1.1, s1.2, List.isEmpty_eq_false.mpr h1]
  simp only [Bool.false_eq_true, if_false, eq_self_iff_true, if_true]
  rw [s2.1, List.isEmpty_eq_false.mpr h2]
  simp

/-- C9 counterexample: for `v = "01.1.4"` the parse succeeds with
`(M, m) = (1, 1)`, but `get_release_cycle` returns the matched substring
`"01.1"`, not the decimal rendering `"1.1"`. -/
theorem C9_leading_zero_cex :
    parse_version "01.1.4" = some (1, 1, 4, 0) ∧
    get_release_cycle "01.1.4" = some "01.1" ∧
    ("01.1" : String) ≠ "1.1" := by
  refine ⟨by decide, by decide, by decide⟩

/-- C9 amended: whenever `parse_version v` succeeds with `(M, m, p, h)`,
`get_release_cycle v` also succeeds and returns the two leading digit runs
of `v` joined by a dot — a string whose numeric components are `M` and `m`
(it equals the decimal rendering `"M.m"` exactly when those runs carry no
leading zeros). -/
theorem C9_amended_cycle_of_parsed :
    ∀ (v : String) (M m p h : Nat), parse_version v = some (M, m, p, h) →
      ∃ d1 d2 : List Char,
        releaseCycleParts v = some (d1, d2) ∧
        get_release_cycle v = some (String.mk (d1 ++ '.' :: d2)) ∧
        d1 ≠ [] ∧ d2 ≠ [] ∧ allDigits d1 = true ∧ allDigits d2 = true ∧
        digitsToNat d1 = M ∧ digitsToNat d2 = m := by
  intro v M m p h hp
  rcases parse_version_eq_some_iff.mp hp with hs | ⟨hlast, hs⟩
  · obtain ⟨d1, d2, d3, tail, hl, h1, h2, _, ha1, ha2, _, hcase⟩ := hs
    have hparts := releaseCycleParts_of_shape (d3 ++ tail) hl h1 h2 ha1 ha2
    have hMm : digitsToNat d1 = M ∧ digitsToNat d2 = m := by
      rcases hcase with ⟨_, ht⟩ | ⟨d4, _, _, _, ht⟩ <;>
        exact ⟨(congrArg Prod.fst ht).symm,
          (congrArg (fun q => q.2.1) ht).symm⟩
    exact ⟨d1, d2, hparts, by rw [get_release_cycle, hparts]; rfl,
      h1, h2, ha1, ha2, hMm.1, hMm.2⟩
  · obtain ⟨d1, d2, d3, tail, hl, h1, h2, _, ha1, ha2, _, hcase⟩ := hs
    have hvne : v.data ≠ [] := by
      intro hnil
      rw [hnil] at hlast
      exact Option.noConfusion hlast
    have hfull : v.data = d1 ++ '.' :: (d2 ++ '.' :: ((d3 ++ tail) ++ ['\n'])) := by
      have hsplit : v.data = v.data.dropLast ++ [v.data.getLast hvne] := by
        rw [List.dropLast_append_getLast]
      have hgl : v.data.getLast hvne = '\n' := by
        have := List.getLast?_eq_getLast v.data hvne
        rw [hlast] at this
        exact (Option.some_inj.mp this).symm
      rw [hsplit, hgl, hl]
      simp [List.append_assoc]
    have hparts := releaseCycleParts_of_shape ((d3 ++ tail) ++ ['\n'])
      hfull h1 h2 ha1 ha2
    have hMm : digitsToNat d1 = M ∧ digitsToNat d2 = m := by
      rcases hcase with ⟨_, ht⟩ | ⟨d4, _, _, _, ht⟩ <;>
        exact ⟨(congrArg Prod.fst ht).symm,
          (congrArg (fun q => q.2.1) ht).symm⟩
    exact ⟨d1, d2, hparts, by rw [get_release_cycle, hparts]; rfl,
      h1, h2, ha1, ha2, hMm.1, hMm.2⟩

/-- Witness for C9 amended: instantiated at `"12.1.4-h2"`. -/
theorem C9_amended_cycle_of_parsed_witness :
    ∃ d1 d2 : List Char,
      releaseCycleParts "12.1.4-h2" = some (d1, d2) ∧
      get_release_cycle "12.1.4-h2" = some (String.mk (d1 ++ '.' :: d2)) ∧
      d1 ≠ [] ∧ d2 ≠ [] ∧ allDigits d1 = true ∧ allDigits d2 = true ∧
      digitsToNat d1 = 12 ∧ digitsToNat d2 = 1 :=
  C9_amended_cycle_of_parsed "12.1.4-h2" 12 1 4 2 (by decide)

/-! ### Claim C7: run signalling -/

/-- C7: if no block yields an update the run signals `NO_UPDATES` with an
empty change list, exit code 0 and no file written; when at least one change
exists the run signals `UPDATES_FOUND` with one line per change and writes
the updated document; the two markers are distinct. -/
theorem C7_run_signals :
    (∀ (m : CycleMap) (content updated : String),
        apply_updates content (parse_md_releases content) m = some (updated, []) →
        main_outcome m content = some ⟨"NO_UPDATES", [], none, 0⟩)
    ∧ (∀ (m : CycleMap) (content updated : String) (changes : List String),
        apply_updates content (parse_md_releases content) m = some (updated, changes) →
        changes ≠ [] →
        main_outcome m content = some ⟨"UPDATES_FOUND", changes, some updated, 0⟩)
    ∧ "NO_UPDATES" ≠ "UPDATES_FOUND" := by
  refine ⟨?_, ?_, by decide⟩
  · intro m content updated h
    simp [main_outcome, h]
  · intro m content updated changes h hne
    simp [main_outcome, h, List.isEmpty_eq_false.mpr hne]

/-- Witness for C7: a run with no feed data signals `NO_UPDATES`, and a run
with one newer feed version signals `UPDATES_FOUND` with the change line and
the written document. -/
theorem C7_run_signals_witness :
    main_outcome [] "" = some ⟨"NO_UPDATES", [], none, 0⟩ ∧
    main_outcome [("10.1", ("10.1.5-h1", "2026-02-04"))]
        "  - releaseCycle: \"10.1\"\n---\n" =
      some ⟨"UPDATES_FOUND", ["10.1:  -> 10.1.5-h1"],
        some "  - releaseCycle: \"10.1\"\n---\n", 0⟩ :=
  ⟨C7_run_signals.1 [] "" "" (by decide),
   C7_run_signals.2.1 [("10.1", ("10.1.5-h1", "2026-02-04"))]
     "  - releaseCycle: \"10.1\"\n---\n" "  - releaseCycle: \"10.1\"\n---\n"
     ["10.1:  -> 10.1.5-h1"] (by decide) (by decide)⟩

/-! ### Claim C1: unparseable current `latest` -/

/-- C1 (code bug): for a block whose `latest` is a nonempty string that does
not parse (here `"10.1"`) and a cycle candidate that does parse (here
`"10.1.5"`), the comparison in `apply_updates` does not fall back to the
zero tuple: Python evaluates `new_parsed > current_parsed` with
`current_parsed = None` and raises `TypeError`, modelled by the `none`
result, so the run fails instead of updating the block. -/
theorem C1_unparseable_latest_raises :
    parse_version "10.1" = none ∧
    parse_version "10.1.5" = some (10, 1, 5, 0) ∧
    apply_updates "  - releaseCycle: \"10.1\"\n    latest: \"10.1\"\n---\n"
      (parse_md_releases "  - releaseCycle: \"10.1\"\n    latest: \"10.1\"\n---\n")
      [("10.1", ("10.1.5", "2026-02-04"))] = none := by
  refine ⟨by decide, by decide, by decide⟩

/-! ### Claim C10: a change description without a text change -/

/-- C10: a block whose cycle has a strictly greater candidate but whose text
contains no quoted `latest` line, no `latestReleaseDate` line and no `link`
line yields a change description while the document text is returned
unchanged. -/
theorem C10_change_without_text_change :
    parse_md_releases "  - releaseCycle: \"10.1\"\n---\n" ≠ [] ∧
    ¬ "    latest: \"".data <:+: "  - releaseCycle: \"10.1\"\n---\n".data ∧
    ¬ "    latestReleaseDate".data <:+: "  - releaseCycle: \"10.1\"\n---\n".data ∧
    ¬ "    link".data <:+: "  - releaseCycle: \"10.1\"\n---\n".data ∧
    vLt (0, 0, 0, 0) (10, 1, 5, 1) = true ∧
    apply_updates "  - releaseCycle: \"10.1\"\n---\n"
      (parse_md_releases "  - releaseCycle: \"10.1\"\n---\n")
      [("10.1", ("10.1.5-h1", "2026-02-04"))] =
      some ("  - releaseCycle: \"10.1\"\n---\n", ["10.1:  -> 10.1.5-h1"]) := by
  refine ⟨by decide, by decide, by decide, by decide, by decide, by decide⟩

/-! ### Claim C8: malformed document structure -/

/-- C8 counterexample: a document consisting of a release-cycle line with no
reachable terminator is not a fatal parse error — `parse_md_releases` is
total and returns a block sequence (here the empty one) instead of failing. -/
theorem C8_no_terminator_not_fatal :
    parse_md_releases "  - releaseCycle: \"10.1\"\n    latest: \"10.1.2\"" = [] := by
  decide

/-- C8 amended: a release-cycle line after which no terminator is reachable
is silently unmatched (the parser returns the block sequence without it,
not an error); appending a terminator makes the very same block parse. -/
theorem C8_amended_silent_drop :
    parse_md_releases "  - releaseCycle: \"10.1\"\n    latest: \"10.1.2\"" = [] ∧
    parse_md_releases ("  - releaseCycle: \"10.1\"\n    latest: \"10.1.2\"" ++ "\n---") =
      [{ releaseCycle := "10.1"
         latest := some "10.1.2"
         latestReleaseDate := none
         link := none
         startOff := 0
         endOff := 45
         text := "  - releaseCycle: \"10.1\"\n    latest: \"10.1.2\"" }] := by
  refine ⟨by decide, by decide⟩

/-! ### Claim C2: blocks at or above the candidate are untouched -/

lemma parse_version_empty : parse_version "" = none := by decide

/-- C2: processing a block whose current `latest` parses greater than or
equal to the feed candidate for its cycle leaves the accumulator untouched —
no text change and no change description — and when every block's `latest`
parses equal to the feed candidate, the whole patch returns the original
document content with an empty change list. -/
theorem C2_equal_or_newer_untouched :
    (∀ (m : CycleMap) (acc : String × List String) (r : MdRelease)
        (v d : String) (tc tn : VTuple),
        m.lookup r.releaseCycle = some (v, d) →
        parse_version (r.latest.getD "") = some tc →
        parse_version v = some tn →
        vLt tc tn = false →
        apply_step m acc r = some acc)
    ∧ (∀ (content : String) (releases : List MdRelease) (m : CycleMap),
        (∀ r ∈ releases, ∀ v d, m.lookup r.releaseCycle = some (v, d) →
          ∃ t, parse_version (r.latest.getD "") = some t ∧
            parse_version v = some t) →
        apply_updates content releases m = some (content, [])) := by
  have hstep : ∀ (m : CycleMap) (acc : String × List String) (r : MdRelease)
      (v d : String) (tc tn : VTuple),
      m.lookup r.releaseCycle = some (v, d) →
      parse_version (r.latest.getD "") = some tc →
      parse_version v = some tn →
      vLt tc tn = false →
      apply_step m acc r = some acc := by
    intro m acc r v d tc tn hl hc hn hlt
    have hne : r.latest.getD "" ≠ "" := by
      intro he
      rw [he, parse_version_empty] at hc
      exact Option.noConfusion hc
    unfold apply_step
    rw [hl]
    dsimp only
    rw [if_neg hne, hc, hn]
    simp [hlt]
  refine ⟨hstep, ?_⟩
  intro content releases m hall
  have hmem : ∀ r ∈ releases.reverse, ∀ (acc : String × List String),
      apply_step m acc r = some acc := by
    intro r hr acc
    have hr2 := List.mem_reverse.mp hr
    rcases hlook : m.lookup r.releaseCycle with _ | ⟨v, d⟩
    · unfold apply_step
      rw [hlook]
    · obtain ⟨t, hc, hn⟩ := hall r hr2 v d hlook
      exact hstep m acc r v d t t hlook hc hn (vLt_irrefl t)
  unfold apply_updates
  generalize releases.reverse = l at hmem
  induction l with
  | nil => rfl
  | cons r rest ih =>
    rw [List.foldlM_cons, hmem r (List.mem_cons_self r rest) (content, [])]
    show List.foldlM (apply_step m) (content, []) rest = some (content, [])
    exact ih (fun r hr acc => hmem r (List.mem_cons_of_mem _ hr) acc)

/-- Witness for C2: a step on a block whose `latest` `"10.1.6"` is newer
than the candidate `"10.1.5"` is a no-op, and a document whose single block
already holds the feed's version round-trips unchanged with no changes. -/
theorem C2_equal_or_newer_untouched_witness :
    apply_step [("10.1", ("10.1.5", "2026-01-01"))] ("doc", [])
      { releaseCycle := "10.1", latest := some "10.1.6",
        latestReleaseDate := none, link := none,
        startOff := 0, endOff := 0, text := "t" } = some ("doc", []) ∧
    apply_updates "  - releaseCycle: \"10.1\"\n    latest: \"10.1.5\"\n---\n"
      (parse_md_releases "  - releaseCycle: \"10.1\"\n    latest: \"10.1.5\"\n---\n")
      [("10.1", ("10.1.5", "2026-01-01"))] =
      some ("  - releaseCycle: \"10.1\"\n    latest: \"10.1.5\"\n---\n", []) := by
  constructor
  · exact C2_equal_or_newer_untouched.1 [("10.1", ("10.1.5", "2026-01-01"))]
      ("doc", []) _ "10.1.5" "2026-01-01" (10, 1, 6, 0) (10, 1, 5, 0)
      (by decide) (by decide) (by decide) (by decide)
  · apply C2_equal_or_newer_untouched.2
    intro r hr v d hl
    rw [show parse_md_releases
        "  - releaseCycle: \"10.1\"\n    latest: \"10.1.5\"\n---\n" =
        [{ releaseCycle := "10.1", latest := some "10.1.5",
           latestReleaseDate := none, link := none,
           startOff := 0, endOff := 45,
           text := "  - releaseCycle: \"10.1\"\n    latest: \"10.1.5\"" }]
      from by decide] at hr
    simp only [List.mem_singleton] at hr
    subst hr
    have hl2 : (some ("10.1.5", "2026-01-01") : Option (String × String)) =
        some (v, d) := by
      rw [← hl]
      decide
    have hv : "10.1.5" = v := congrArg Prod.fst (Option.some_inj.mp hl2)
    subst hv
    exact ⟨(10, 1, 5, 0), by decide, by decide⟩

/-! ### Claim C3: URL template selection -/

lemma releaseCycleParts_digits {v : String} {d1 d2 : List Char}
    (h : releaseCycleParts v = some (d1, d2)) :
    d1 ≠ [] ∧ d2 ≠ [] ∧ allDigits d1 = true ∧ allDigits d2 = true := by
  unfold releaseCycleParts at h
  dsimp only at h
  split at h
  · exact absurd h (by simp)
  rename_i hne1
  split at h
  case h_2 => exact absurd h (by simp)
  rename_i c rest hdrop
  split at h
  case isFalse => exact absurd h (by simp)
  rename_i hc
  split at h
  · exact absurd h (by simp)
  rename_i hne2
  obtain ⟨he1, he2⟩ := Prod.mk.injEq .. ▸ Option.some_inj.mp h
  subst he1
  subst he2
  exact ⟨by simpa [List.isEmpty_iff] using hne1,
    by simpa [List.isEmpty_iff] using hne2,
    allDigits_takeWhile _, allDigits_takeWhile _⟩

set_option maxRecDepth 8000 in
/-- C3: the URL builder selects its template by release cycle with
descending thresholds — at least 12.1 gives the `ngfw/release-notes`
template, at least 10.1 (below 12.1) the
`pan-os/<cycle>/pan-os-release-notes` template, at least 8.1 (below 10.1)
the template with the cycle path duplicated as the issues-file prefix, and
anything below 8.1 no URL; `buildUrl("12.1.4-h2")` contains
`ngfw/release-notes/12-1` and `pan-os-12-1-4-h2-addressed-issues`, and a
version with cycle `7.1` yields `None`. -/
theorem C3_url_template_selection :
    (∀ (v : String) (d1 d2 : List Char), releaseCycleParts v = some (d1, d2) →
      ((pairGe (digitsToNat d1, digitsToNat d2) (12, 1) = true →
        ∃ rest : String, build_release_notes_url v =
          some ("https://docs.paloaltonetworks.com/ngfw/release-notes/" ++
            (toString (digitsToNat d1) ++ "-" ++ toString (digitsToNat d2)) ++
            rest))
      ∧ (pairGe (digitsToNat d1, digitsToNat d2) (12, 1) = false →
         pairGe (digitsToNat d1, digitsToNat d2) (10, 1) = true →
        ∃ rest : String, build_release_notes_url v =
          some ("https://docs.paloaltonetworks.com/pan-os/" ++
            (toString (digitsToNat d1) ++ "-" ++ toString (digitsToNat d2)) ++
            ("/pan-os-release-notes" ++ rest)))
      ∧ (pairGe (digitsToNat d1, digitsToNat d2) (10, 1) = false →
         pairGe (digitsToNat d1, digitsToNat d2) (8, 1) = true →
        ∃ rest : String, build_release_notes_url v =
          some ("https://docs.paloaltonetworks.com/pan-os/" ++
            (toString (digitsToNat d1) ++ "-" ++ toString (digitsToNat d2)) ++
            ("/pan-os-release-notes" ++
              ("/pan-os-" ++
                (toString (digitsToNat d1) ++ "-" ++ toString (digitsToNat d2)) ++
                "-addressed-issues" ++ rest))))
      ∧ (pairGe (digitsToNat d1, digitsToNat d2) (8, 1) = false →
        build_release_notes_url v = none)))
    ∧ build_release_notes_url "12.1.4-h2" =
      some "https://docs.paloaltonetworks.com/ngfw/release-notes/12-1/pan-os-12-1-4-known-and-addressed-issues/pan-os-12-1-4-h2-addressed-issues"
    ∧ "ngfw/release-notes/12-1".data <:+:
      "https://docs.paloaltonetworks.com/ngfw/release-notes/12-1/pan-os-12-1-4-known-and-addressed-issues/pan-os-12-1-4-h2-addressed-issues".data
    ∧ "pan-os-12-1-4-h2-addressed-issues".data <:+:
      "https://docs.paloaltonetworks.com/ngfw/release-notes/12-1/pan-os-12-1-4-known-and-addressed-issues/pan-os-12-1-4-h2-addressed-issues".data
    ∧ (∀ v : String, get_release_cycle v = some "7.1" →
        build_release_notes_url v = none) := by
  have hmain : ∀ (v : String) (d1 d2 : List Char),
      releaseCycleParts v = some (d1, d2) →
      ((pairGe (digitsToNat d1, digitsToNat d2) (12, 1) = true →
        ∃ rest : String, build_release_notes_url v =
          some ("https://docs.paloaltonetworks.com/ngfw/release-notes/" ++
            (toString (digitsToNat d1) ++ "-" ++ toString (digitsToNat d2)) ++
            rest))
      ∧ (pairGe (digitsToNat d1, digitsToNat d2) (12, 1) = false →
         pairGe (digitsToNat d1, digitsToNat d2) (10, 1) = true →
        ∃ rest : String, build_release_notes_url v =
          some ("https://docs.paloaltonetworks.com/pan-os/" ++
            (toString (digitsToNat d1) ++ "-" ++ toString (digitsToNat d2)) ++
            ("/pan-os-release-notes" ++ rest)))
      ∧ (pairGe (digitsToNat d1, digitsToNat d2) (10, 1) = false →
         pairGe (digitsToNat d1, digitsToNat d2) (8, 1) = true →
        ∃ rest : String, build_release_notes_url v =
          some ("https://docs.paloaltonetworks.com/pan-os/" ++
            (toString (digitsToNat d1) ++ "-" ++ toString (digitsToNat d2)) ++
            ("/pan-os-release-notes" ++
              ("/pan-os-" ++
                (toString (digitsToNat d1) ++ "-" ++ toString (digitsToNat d2)) ++
                "-addressed-issues" ++ rest))))
      ∧ (pairGe (digitsToNat d1, digitsToNat d2) (8, 1) = false →
        build_release_notes_url v = none)) := by
    intro v d1 d2 h
    unfold build_release_notes_url
    rw [h]
    dsimp only
    refine ⟨?_, ?_, ?_, ?_⟩
    · intro hA
      rw [hA]
      simp only [if_true]
      exact ⟨_, rfl⟩
    · intro hA hB
      rw [hA, hB]
      simp only [Bool.false_eq_true, if_false, if_true]
      exact ⟨_, rfl⟩
    · intro hB hC
      have hA : pairGe (digitsToNat d1, digitsToNat d2) (12, 1) = false := by
        rw [pairGe] at hB ⊢
        simp only [Bool.or_eq_true, Bool.and_eq_true, decide_eq_true_eq,
          Bool.or_eq_false_iff, Bool.and_eq_false_iff, decide_eq_false_iff_not] at hB ⊢
        omega
      rw [hA, hB, hC]
      simp only [Bool.false_eq_true, if_false, if_true]
      exact ⟨_, rfl⟩
    · intro hC
      have hB : pairGe (digitsToNat d1, digitsToNat d2) (10, 1) = false := by
        rw [pairGe] at hC ⊢
        simp only [Bool.or_eq_true, Bool.and_eq_true, decide_eq_true_eq,
          Bool.or_eq_false_iff, Bool.and_eq_false_iff, decide_eq_false_iff_not] at hC ⊢
        omega
      have hA : pairGe (digitsToNat d1, digitsToNat d2) (12, 1) = false := by
        rw [pairGe] at hC ⊢
        simp only [Bool.or_eq_true, Bool.and_eq_true, decide_eq_true_eq,
          Bool.or_eq_false_iff, Bool.and_eq_false_iff, decide_eq_false_iff_not] at hC ⊢
        omega
      rw [hA, hB, hC]
      simp only [Bool.false_eq_true, if_false]
  refine ⟨hmain, by decide, by decide, by decide, ?_⟩
  intro v hv
  unfold get_release_cycle at hv
  cases hparts : releaseCycleParts v with
  | none =>
    rw [hparts] at hv
    exact absurd hv (by simp)
  | some p =>
    obtain ⟨d1, d2⟩ := p
    rw [hparts] at hv
    simp only [Option.map_some'] at hv
    have hdata : d1 ++ '.' :: d2 = ['7', '.', '1'] :=
      congrArg String.data (Option.some_inj.mp hv)
    obtain ⟨hne1, hne2, ha1, ha2⟩ := releaseCycleParts_digits hparts
    have hd1 : d1 = ['7'] ∧ d2 = ['1'] := by
      cases d1 with
      | nil => exact absurd rfl hne1
      | cons c cs =>
        cases cs with
        | nil =>
          simp only [List.cons_append, List.nil_append, List.cons.injEq,
            and_true, true_and] at hdata
          obtain ⟨e1, e2⟩ := hdata
          subst e1
          subst e2
          exact ⟨rfl, rfl⟩
        | cons c2 cs2 =>
          simp only [List.cons_append, List.cons.injEq] at hdata
          have hmem : c2.isDigit = true := allDigits_mem ha1 c2 (by simp)
          rw [hdata.2.1] at hmem
          exact absurd hmem (by decide)
    obtain ⟨hd1e, hd2e⟩ := hd1
    subst hd1e
    subst hd2e
    exact (hmain v ['7'] ['1'] hparts).2.2.2 (by decide)

/-- Witness for C3: the four template branches instantiated at versions
with cycles 12.1, 10.2, 9.1 and 8.0, plus the cycle-7.1 case. -/
theorem C3_url_template_selection_witness :
    (∃ rest : String, build_release_notes_url "12.1.4-h2" =
      some ("https://docs.paloaltonetworks.com/ngfw/release-notes/" ++
        (toString (digitsToNat ['1', '2']) ++ "-" ++ toString (digitsToNat ['1'])) ++
        rest))
    ∧ (∃ rest : String, build_release_notes_url "10.2.1" =
      some ("https://docs.paloaltonetworks.com/pan-os/" ++
        (toString (digitsToNat ['1', '0']) ++ "-" ++ toString (digitsToNat ['2'])) ++
        ("/pan-os-release-notes" ++ rest)))
    ∧ (∃ rest : String, build_release_notes_url "9.1.0" =
      some ("https://docs.paloaltonetworks.com/pan-os/" ++
        (toString (digitsToNat ['9']) ++ "-" ++ toString (digitsToNat ['1'])) ++
        ("/pan-os-release-notes" ++
          ("/pan-os-" ++
            (toString (digitsToNat ['9']) ++ "-" ++ toString (digitsToNat ['1'])) ++
            "-addressed-issues" ++ rest))))
    ∧ build_release_notes_url "8.0.0" = none
    ∧ build_release_notes_url "7.1.0" = none :=
  ⟨(C3_url_template_selection.1 "12.1.4-h2" ['1', '2'] ['1'] (by decide)).1 (by decide),
   (C3_url_template_selection.1 "10.2.1" ['1', '0'] ['2'] (by decide)).2.1
     (by decide) (by decide),
   (C3_url_template_selection.1 "9.1.0" ['9'] ['1'] (by decide)).2.2.1
     (by decide) (by decide),
   (C3_url_template_selection.1 "8.0.0" ['8'] ['0'] (by decide)).2.2.2 (by decide),
   C3_url_template_selection.2.2.2.2 "7.1.0" (by decide)⟩

/-! ### Claim C4: the loader retains the first per-cycle maximum -/

/-- The loader-retention property for one stored cycle entry: `ver` (with
raw date normalizing to `dat`) occurs in the feed, carries cycle `cyc`,
every earlier same-cycle parseable version is strictly below it, and no
later same-cycle parseable version is strictly above it — `ver` is the
first feed record attaining the cycle's maximum parsed tuple. -/
def StoredIsFirstMax (entries : List (String × String))
    (cyc ver dat : String) : Prop :=
  ∃ t : VTuple, parse_version ver = some t ∧ get_release_cycle ver = some cyc ∧
    ∃ (l1 l2 : List (String × String)) (rd : String),
      entries = l1 ++ (ver, rd) :: l2 ∧ normalize_date rd = some dat ∧
      (∀ e ∈ l1, get_release_cycle e.1 = some cyc →
        ∀ te, parse_version e.1 = some te → vLt te t = true) ∧
      (∀ e ∈ l2, get_release_cycle e.1 = some cyc →
        ∀ te, parse_version e.1 = some te → vLt t te = false)

/-- Loop invariant of `load_json_versions`: every stored entry is the first
maximum of the processed prefix for its cycle, and a cycle absent from the
map has no parseable entry in the processed prefix. -/
def LoaderInv (pre : List (String × String)) (m : CycleMap) : Prop :=
  (∀ cyc ver dat, m.lookup cyc = some (ver, dat) →
    StoredIsFirstMax pre cyc ver dat) ∧
  (∀ cyc, m.lookup cyc = none →
    ∀ e ∈ pre, get_release_cycle e.1 = some cyc → parse_version e.1 = none)

lemma lookup_cons_eq (k : String) (v : String × String) (rest : CycleMap) :
    ((k, v) :: rest).lookup k = some v := by
  simp [List.lookup]

lemma lookup_cons_ne {k k0 : String} (v : String × String) (rest : CycleMap)
    (h : k ≠ k0) : ((k0, v) :: rest).lookup k = rest.lookup k := by
  simp [List.lookup, beq_eq_false_iff_ne.mpr h]

lemma lookup_replaceValue_self {k : String} (v : String × String)
    {x : String × String} :
    ∀ {m : CycleMap}, m.lookup k = some x →
      (replaceValue k v m).lookup k = some v := by
  intro m
  induction m with
  | nil => intro h; simp [List.lookup] at h
  | cons p rest ih =>
    obtain ⟨k0, v0⟩ := p
    intro h
    by_cases hk : k0 = k
    · subst hk
      unfold replaceValue
      rw [if_pos rfl]
      exact lookup_cons_eq k0 v rest
    · have hkne : k ≠ k0 := fun hh => hk hh.symm
      unfold replaceValue
      rw [if_neg hk, lookup_cons_ne v0 _ hkne]
      rw [lookup_cons_ne v0 rest hkne] at h
      exact ih h

lemma lookup_replaceValue_ne {k k2 : String} (v : String × String)
    (h : k2 ≠ k) :
    ∀ m : CycleMap, (replaceValue k v m).lookup k2 = m.lookup k2 := by
  intro m
  induction m with
  | nil => rfl
  | cons p rest ih =>
    obtain ⟨k0, v0⟩ := p
    by_cases hk : k0 = k
    · subst hk
      have h2 : k2 ≠ k0 := h
      unfold replaceValue
      rw [if_pos rfl, lookup_cons_ne v _ h2, lookup_cons_ne v0 _ h2]
    · unfold replaceValue
      rw [if_neg hk]
      by_cases hk2 : k2 = k0
      · subst hk2
        rw [lookup_cons_eq, lookup_cons_eq]
      · rw [lookup_cons_ne v0 _ hk2, lookup_cons_ne v0 _ hk2]
        exact ih

lemma storedMax_extend {pre : List (String × String)} {cyc ver dat : String}
    {e : String × String} (h : StoredIsFirstMax pre cyc ver dat)
    (he : get_release_cycle e.1 = some cyc →
      ∀ te, parse_version e.1 = some te →
        ∀ t, parse_version ver = some t → vLt t te = false) :
    StoredIsFirstMax (pre ++ [e]) cyc ver dat := by
  obtain ⟨t, hpt, hct, l1, l2, rd, hpre, hnd, hstrict, hle⟩ := h
  refine ⟨t, hpt, hct, l1, l2 ++ [e], rd, ?_, hnd, hstrict, ?_⟩
  · rw [hpre]
    simp [List.append_assoc]
  · intro x hx hxc tx hxt
    rcases List.mem_append.mp hx with h2 | h2
    · exact hle x h2 hxc tx hxt
    · simp only [List.mem_singleton] at h2
      subst h2
      exact he hxc tx hxt t hpt

lemma loader_inv_step {pre : List (String × String)} {m m1 : CycleMap}
    {e : String × String} (hinv : LoaderInv pre m)
    (hstep : load_step m e = some m1) : LoaderInv (pre ++ [e]) m1 := by
  obtain ⟨ha, hb⟩ := hinv
  unfold load_step at hstep
  cases hp : parse_version e.1 with
  | none =>
    rw [hp] at hstep
    obtain rfl : m = m1 := Option.some_inj.mp hstep
    constructor
    · intro cyc ver dat hl
      refine storedMax_extend (ha cyc ver dat hl) ?_
      intro _ te hte
      rw [hp] at hte
      exact Option.noConfusion hte
    · intro cyc hl x hx hxc
      rcases List.mem_append.mp hx with h2 | h2
      · exact hb cyc hl x h2 hxc
      · simp only [List.mem_singleton] at h2
        subst h2
        exact hp
  | some parsed =>
    rw [hp] at hstep
    cases hcy : get_release_cycle e.1 with
    | none =>
      rw [hcy] at hstep
      obtain rfl : m = m1 := Option.some_inj.mp hstep
      constructor
      · intro cyc ver dat hl
        refine storedMax_extend (ha cyc ver dat hl) ?_
        intro hcc
        rw [hcy] at hcc
        exact Option.noConfusion hcc
      · intro cyc hl x hx hxc
        rcases List.mem_append.mp hx with h2 | h2
        · exact hb cyc hl x h2 hxc
        · simp only [List.mem_singleton] at h2
          subst h2
          rw [hcy] at hxc
          exact Option.noConfusion hxc
    | some c0 =>
      rw [hcy] at hstep
      cases hnd : normalize_date e.2 with
      | none =>
        rw [hnd] at hstep
        exact Option.noConfusion hstep
      | some nd =>
        rw [hnd] at hstep
        dsimp only at hstep
        cases hlk : m.lookup c0 with
        | none =>
          rw [hlk] at hstep
          obtain rfl : m ++ [(c0, (e.1, nd))] = m1 := Option.some_inj.mp hstep
          constructor
          · intro cyc ver dat hl
            rw [List.lookup_append] at hl
            cases hmc : m.lookup cyc with
            | some x =>
              rw [hmc] at hl
              obtain rfl : x = (ver, dat) := Option.some_inj.mp hl
              have hcne : cyc ≠ c0 := by
                rintro rfl
                rw [hlk] at hmc
                exact Option.noConfusion hmc
              refine storedMax_extend (ha cyc ver dat hmc) ?_
              intro hcc
              rw [hcy] at hcc
              exact absurd (Option.some_inj.mp hcc) (fun hh => hcne hh.symm)
            | none =>
              rw [hmc] at hl
              by_cases hcc0 : cyc = c0
              · subst hcc0
                rw [lookup_cons_eq] at hl
                obtain ⟨rfl, rfl⟩ : e.1 = ver ∧ nd = dat := by
                  have := Option.some_inj.mp hl
                  exact ⟨congrArg Prod.fst this, congrArg Prod.snd this⟩
                refine ⟨parsed, hp, hcy, pre, [], e.2, by simp, hnd, ?_, by simp⟩
                intro x hx hxc tx hxt
                rw [hb cyc hmc x hx hxc] at hxt
                exact Option.noConfusion hxt
              · rw [lookup_cons_ne _ _ hcc0] at hl
                exact absurd hl (by simp [List.lookup])
          · intro cyc hl x hx hxc
            rw [List.lookup_append] at hl
            cases hmc : m.lookup cyc with
            | some y =>
              rw [hmc] at hl
              exact Option.noConfusion hl
            | none =>
              rw [hmc] at hl
              by_cases hcc0 : cyc = c0
              · subst hcc0
                rw [lookup_cons_eq] at hl
                exact Option.noConfusion hl
              · rcases List.mem_append.mp hx with h2 | h2
                · exact hb cyc hmc x h2 hxc
                · simp only [List.mem_singleton] at h2
                  subst h2
                  rw [hcy] at hxc
                  exact absurd (Option.some_inj.mp hxc) (fun hh => hcc0 hh.symm)
        | some sv_sd =>
          obtain ⟨sv, sd⟩ := sv_sd
          rw [hlk] at hstep
          dsimp only at hstep
          obtain ⟨t0, hpt0, hct0, l1p, l2p, rdp, hprep, hndp, hstrictp, hlep⟩ :=
            ha c0 sv sd hlk
          rw [hpt0] at hstep
          dsimp only at hstep
          by_cases hgt : vLt t0 parsed = true
          · rw [if_pos hgt] at hstep
            obtain rfl : replaceValue c0 (e.1, nd) m = m1 := Option.some_inj.mp hstep
            constructor
            · intro cyc ver dat hl
              by_cases hcc0 : cyc = c0
              · subst hcc0
                rw [lookup_replaceValue_self (e.1, nd) hlk] at hl
                obtain ⟨rfl, rfl⟩ : e.1 = ver ∧ nd = dat := by
                  have := Option.some_inj.mp hl
                  exact ⟨congrArg Prod.fst this, congrArg Prod.snd this⟩
                refine ⟨parsed, hp, hcy, pre, [], e.2, by simp, hnd, ?_, by simp⟩
                intro x hx hxc tx hxt
                rw [hprep] at hx
                rcases List.mem_append.mp hx with hx1 | hx2
                · exact vLt_trans (hstrictp x hx1 hxc tx hxt) hgt
                · rcases List.mem_cons.mp hx2 with rfl | hx3
                  · have : tx = t0 := by
                      rw [hxt] at hpt0
                      exact Option.some_inj.mp hpt0
                    rw [this]
                    exact hgt
                  · exact vLt_le_lt_trans (hlep x hx3 hxc tx hxt) hgt
              · rw [lookup_replaceValue_ne _ hcc0] at hl
                refine storedMax_extend (ha cyc ver dat hl) ?_
                intro hcc
                rw [hcy] at hcc
                exact absurd (Option.some_inj.mp hcc) (fun hh => hcc0 hh.symm)
            · intro cyc hl x hx hxc
              by_cases hcc0 : cyc = c0
              · subst hcc0
                rw [lookup_replaceValue_self (e.1, nd) hlk] at hl
                exact Option.noConfusion hl
              · rw [lookup_replaceValue_ne _ hcc0] at hl
                rcases List.mem_append.mp hx with h2 | h2
                · exact hb cyc hl x h2 hxc
                · simp only [List.mem_singleton] at h2
                  subst h2
                  rw [hcy] at hxc
                  exact absurd (Option.some_inj.mp hxc) (fun hh => hcc0 hh.symm)
          · rw [if_neg hgt] at hstep
            obtain rfl : m = m1 := Option.some_inj.mp hstep
            have hgtf : vLt t0 parsed = false := by
              cases hbe : vLt t0 parsed with
              | false => rfl
              | true => exact absurd hbe hgt
            constructor
            · intro cyc ver dat hl
              refine storedMax_extend (ha cyc ver dat hl) ?_
              intro hcc te hte t ht
              rw [hcy] at hcc
              obtain rfl : c0 = cyc := Option.some_inj.mp hcc
              obtain ⟨rfl, rfl⟩ : sv = ver ∧ sd = dat := by
                rw [hl] at hlk
                have h5 := Option.some_inj.mp hlk
                exact ⟨(congrArg Prod.fst h5).symm, (congrArg Prod.snd h5).symm⟩
              obtain rfl : te = parsed := by
                rw [hte] at hp
                exact Option.some_inj.mp hp
              obtain rfl : t = t0 := by
                rw [ht] at hpt0
                exact Option.some_inj.mp hpt0
              exact hgtf
            · intro cyc hl x hx hxc
              rcases List.mem_append.mp hx with h2 | h2
              · exact hb cyc hl x h2 hxc
              · simp only [List.mem_singleton] at h2
                subst h2
                rw [hcy] at hxc
                obtain rfl : c0 = cyc := Option.some_inj.mp hxc
                rw [hl] at hlk
                exact Option.noConfusion hlk

lemma loader_foldl_inv :
    ∀ (rest pre : List (String × String)) (m mf : CycleMap),
      LoaderInv pre m → List.foldlM load_step m rest = some mf →
      LoaderInv (pre ++ rest) mf
  | [], pre, m, mf, hinv, hf => by
    obtain rfl : m = mf := Option.some_inj.mp hf
    rw [List.append_nil]
    exact hinv
  | e :: rest, pre, m, mf, hinv, hf => by
    rw [List.foldlM_cons] at hf
    cases hs : load_step m e with
    | none =>
      rw [hs] at hf
      have hcf : (none : Option CycleMap) = some mf := hf
      exact Option.noConfusion hcf
    | some m1 =>
      rw [hs] at hf
      have hf2 : List.foldlM load_step m1 rest = some mf := hf
      have h1 := loader_inv_step hinv hs
      have h2 := loader_foldl_inv rest (pre ++ [e]) m1 mf h1 hf2
      rwa [List.append_assoc, List.singleton_append] at h2

/-- C4: whatever `load_json_versions` stores for a release cycle is the
record whose parsed tuple is the cycle's maximum, and among records
attaining that maximum the first one seen (a stored entry is replaced only
by a strictly greater tuple); a feed with `"10.1.2"` and `"10.1.5-h1"` for
cycle `"10.1"` retains `"10.1.5-h1"`. -/
theorem C4_loader_keeps_first_max :
    (∀ (entries : List (String × String)) (m : CycleMap) (cyc ver dat : String),
        load_json_versions entries = some m →
        m.lookup cyc = some (ver, dat) →
        StoredIsFirstMax entries cyc ver dat)
    ∧ load_json_versions
        [("10.1.2", "2026/01/15 10:00:00"), ("10.1.5-h1", "2026/02/04 11:11:55")] =
      some [("10.1", ("10.1.5-h1", "2026-02-04"))] := by
  refine ⟨?_, by decide⟩
  intro entries m cyc ver dat hload hlook
  have hinv0 : LoaderInv [] [] :=
    ⟨fun cyc ver dat h => by simp [List.lookup] at h,
     fun cyc h x hx => by simp at hx⟩
  have h1 := loader_foldl_inv entries [] [] m hinv0 hload
  rw [List.nil_append] at h1
  exact h1.1 cyc ver dat hlook

/-- Witness for C4: applied to the two-record feed, the stored entry for
cycle `"10.1"` is `"10.1.5-h1"`, the first record attaining the maximum. -/
theorem C4_loader_keeps_first_max_witness :
    StoredIsFirstMax
      [("10.1.2", "2026/01/15 10:00:00"), ("10.1.5-h1", "2026/02/04 11:11:55")]
      "10.1" "10.1.5-h1" "2026-02-04" :=
  C4_loader_keeps_first_max.1
    [("10.1.2", "2026/01/15 10:00:00"), ("10.1.5-h1", "2026/02/04 11:11:55")]
    [("10.1", ("10.1.5-h1", "2026-02-04"))] "10.1" "10.1.5-h1" "2026-02-04"
    (by decide) (by decide)

/-! ### Claim C6: the `link` field is never added -/

lemma pfx_of_append {p a X : List Char} (h : p <+: a ++ X) : p <+: a ∨ a <+: p :=
  List.prefix_or_prefix_of_prefix h (List.prefix_append a X)

lemma shape_chars {l : List Char} {t : VTuple} (hs : specVersionShape l t) :
    ∀ c ∈ l, c.isDigit = true ∨ c = '.' ∨ c = '-' ∨ c = 'h' ∨ c = '\n' := by
  obtain ⟨d1, d2, d3, tail, hl, _, _, _, ha1, ha2, ha3, hcase⟩ := hs
  intro c hc
  rw [hl] at hc
  simp only [List.mem_append, List.mem_cons] at hc
  rcases hc with h1 | h1 | h1 | h1 | h1
  · exact Or.inl (allDigits_mem ha1 c h1)
  · exact Or.inr (Or.inl h1)
  · exact Or.inl (allDigits_mem ha2 c h1)
  · exact Or.inr (Or.inl h1)
  · rcases h1 with h2 | h2
    · exact Or.inl (allDigits_mem ha3 c h2)
    · rcases hcase with ⟨htail, _⟩ | ⟨d4, htail, _, ha4, _⟩
      · rw [htail] at h2
        exact absurd h2 (by simp)
      · rw [htail] at h2
        rcases List.mem_cons.mp h2 with h3 | h3
        · exact Or.inr (Or.inr (Or.inl h3))
        · rcases List.mem_cons.mp h3 with h4 | h4
          · exact Or.inr (Or.inr (Or.inr (Or.inl h4)))
          · exact Or.inl (allDigits_mem ha4 c h4)

lemma parseable_chars {nv : String} {t : VTuple} (h : parse_version nv = some t) :
    ∀ c ∈ nv.data, c.isDigit = true ∨ c = '.' ∨ c = '-' ∨ c = 'h' ∨ c = '\n' := by
  intro c hc
  rcases parse_version_eq_some_iff.mp h with hs | ⟨hlast, hs⟩
  · exact shape_chars hs c hc
  · have hne : nv.data ≠ [] := by
      intro hnil
      rw [hnil] at hlast
      exact Option.noConfusion hlast
    have hsplit : nv.data = nv.data.dropLast ++ [nv.data.getLast hne] :=
      (List.dropLast_append_getLast hne).symm
    have hgl : nv.data.getLast hne = '\n' := by
      have h2 := List.getLast?_eq_getLast nv.data hne
      rw [hlast] at h2
      exact (Option.some_inj.mp h2).symm
    rw [hsplit] at hc
    rcases List.mem_append.mp hc with h1 | h1
    · exact shape_chars hs c h1
    · simp only [List.mem_singleton] at h1
      subst h1
      exact Or.inr (Or.inr (Or.inr (Or.inr hgl)))

lemma parseable_no_char {nv : String} {t : VTuple} (h : parse_version nv = some t)
    {x : Char} (hx1 : x.isDigit = false) (hx2 : x ≠ '.') (hx3 : x ≠ '-')
    (hx4 : x ≠ 'h') (hx5 : x ≠ '\n') : x ∉ nv.data := by
  intro hmem
  rcases parseable_chars h x hmem with h1 | h1 | h1 | h1 | h1
  · rw [hx1] at h1
    exact Bool.noConfusion h1
  · exact hx2 h1
  · exact hx3 h1
  · exact hx4 h1
  · exact hx5 h1

lemma not_infix_append {P X : List Char} {c : Char} (hcP : c ∉ P)
    (hX : ¬ P <:+: X) :
    ∀ a : List Char, a.getLast? = some c → (∃ d ∈ P, d ∉ a) →
      ¬ P <:+: (a ++ X) := by
  intro a
  induction a with
  | nil =>
    intro h _
    exact absurd h (by simp)
  | cons x a2 ih =>
    intro hc hd hinf
    rcases List.infix_cons_iff.mp hinf with hpfx | hinf2
    · rcases pfx_of_append (p := P) (a := x :: a2) (X := X) hpfx with h1 | h2
      · obtain ⟨d, hdP, hda⟩ := hd
        exact hda (List.IsPrefix.subset h1 hdP)
      · refine hcP (List.IsPrefix.subset h2 ?_)
        have h3 := List.getLast?_eq_getLast (x :: a2) (by simp)
        rw [hc] at h3
        have hg : (x :: a2).getLast (by simp) = c := (Option.some_inj.mp h3).symm
        rw [← hg]
        exact List.getLast_mem _
    · cases a2 with
      | nil =>
        have h4 : P <:+: X := by simpa using hinf2
        exact hX h4
      | cons y a3 =>
        refine ih ?_ ?_ hinf2
        · rwa [List.getLast?_cons_cons] at hc
        · obtain ⟨d, hdP, hda⟩ := hd
          exact ⟨d, hdP, fun hh => hda (List.mem_cons_of_mem _ hh)⟩

lemma subAllAux_pfx {P : List Char}
    (tryM : List Char → Option (List Char × List Char)) (lit : List Char)
    (hlit : ∀ q, q ≠ [] → q <:+ P → ¬ q <+: lit)
    (hlen : P.length < lit.length)
    (hrepl : ∀ l r rest, tryM l = some (r, rest) → ∃ ext, r = lit ++ ext) :
    ∀ (fuel : Nat) (l : List Char) (q : List Char), q ≠ [] → q <:+ P →
      q <+: subAllAux tryM fuel l → q <+: l := by
  intro fuel
  induction fuel with
  | zero =>
    intro l q _ _ h
    exact h
  | succ n ih =>
    intro l q hq hqP hpre
    cases l with
    | nil =>
      exact hpre
    | cons c cs =>
      cases htry : tryM (c :: cs) with
      | some pr =>
        obtain ⟨r, rest⟩ := pr
        have heq : subAllAux tryM (n + 1) (c :: cs) = r ++ subAllAux tryM n rest := by
          simp only [subAllAux, htry]
        rw [heq] at hpre
        obtain ⟨ext, rfl⟩ := hrepl _ _ _ htry
        exfalso
        have hql : q.length ≤ P.length := List.IsSuffix.length_le hqP
        rcases pfx_of_append hpre with h1 | h2
        · rcases pfx_of_append h1 with h3 | h4
          · exact hlit q hq hqP h3
          · have h5 := List.IsPrefix.length_le h4
            omega
        · have h5 := List.IsPrefix.length_le h2
          rw [List.length_append] at h5
          omega
      | none =>
        have heq : subAllAux tryM (n + 1) (c :: cs) = c :: subAllAux tryM n cs := by
          simp only [subAllAux, htry]
        rw [heq] at hpre
        cases q with
        | nil => exact absurd rfl hq
        | cons qh qt =>
          obtain ⟨rfl, hqt⟩ := List.cons_prefix_cons.mp hpre
          cases hqte : qt with
          | nil =>
            exact List.cons_prefix_cons.mpr ⟨rfl, List.nil_prefix⟩
          | cons z zs =>
            have hqtne : qt ≠ [] := by rw [hqte]; simp
            have hqtP : qt <:+ P :=
              List.IsSuffix.trans (List.tail_suffix (qh :: qt)) hqP
            have hres := ih cs qt hqtne hqtP hqt
            rw [← hqte]
            exact List.cons_prefix_cons.mpr ⟨rfl, hres⟩

lemma subAllAux_preserves_noP {P : List Char}
    (tryM : List Char → Option (List Char × List Char)) (lit : List Char)
    (hP : P ≠ [])
    (hlit : ∀ q, q ≠ [] → q <:+ P → ¬ q <+: lit)
    (hlen : P.length < lit.length)
    (hrepl : ∀ l r rest, tryM l = some (r, rest) →
      (∃ ext, r = lit ++ ext) ∧ (∃ c, r.getLast? = some c ∧ c ∉ P) ∧
        (∃ d ∈ P, d ∉ r))
    (hrest : ∀ l r rest, tryM l = some (r, rest) → rest <:+ l) :
    ∀ (fuel : Nat) (l : List Char), ¬ P <:+: l → ¬ P <:+: subAllAux tryM fuel l := by
  intro fuel
  induction fuel with
  | zero =>
    intro l h
    exact h
  | succ n ih =>
    intro l hnl
    cases l with
    | nil => exact hnl
    | cons c cs =>
      cases htry : tryM (c :: cs) with
      | some pr =>
        obtain ⟨r, rest⟩ := pr
        have heq : subAllAux tryM (n + 1) (c :: cs) = r ++ subAllAux tryM n rest := by
          simp only [subAllAux, htry]
        rw [heq]
        obtain ⟨⟨ext, hre⟩, ⟨cl, hcl, hclP⟩, hdp⟩ := hrepl _ _ _ htry
        have hsi := List.IsSuffix.isInfix (hrest _ _ _ htry)
        have hrest2 : ¬ P <:+: rest := fun hh => hnl (hh.trans hsi)
        exact not_infix_append hclP (ih rest hrest2) r hcl hdp
      | none =>
        have heq : subAllAux tryM (n + 1) (c :: cs) = c :: subAllAux tryM n cs := by
          simp only [subAllAux, htry]
        rw [heq]
        intro hinf
        have hncs : ¬ P <:+: cs := fun hh => hnl (List.infix_cons_iff.mpr (Or.inr hh))
        rcases List.infix_cons_iff.mp hinf with hpfx | hinf2
        · obtain ⟨ph, pt, rfl⟩ : ∃ ph pt, P = ph :: pt := by
            cases P with
            | nil => exact absurd rfl hP
            | cons a b => exact ⟨a, b, rfl⟩
          obtain ⟨rfl, hpt⟩ := List.cons_prefix_cons.mp hpfx
          cases hpte : pt with
          | nil =>
            refine hnl (List.infix_cons_iff.mpr (Or.inl ?_))
            rw [hpte]
            exact List.cons_prefix_cons.mpr ⟨rfl, List.nil_prefix⟩
          | cons z zs =>
            have hptne : pt ≠ [] := by rw [hpte]; simp
            have hptP : pt <:+ ph :: pt := List.tail_suffix (ph :: pt)
            have hpcs := subAllAux_pfx tryM lit hlit hlen
              (fun l2 r rest hh => (hrepl l2 r rest hh).1) n cs pt hptne hptP hpt
            exact hnl (List.infix_cons_iff.mpr
              (Or.inl (List.cons_prefix_cons.mpr ⟨rfl, hpcs⟩)))
        · exact ih cs hncs hinf2

lemma tryLatestAt_some {nv l r rest : List Char}
    (h : tryLatestAt nv l = some (r, rest)) :
    r = "    latest: \"".data ++ (nv ++ ['"']) ∧ rest <:+ l := by
  unfold tryLatestAt at h
  dsimp only at h
  split at h
  · split at h
    case h_2 => exact absurd h (by simp)
    rename_i rest2 hdrop
    have h2 := Option.some_inj.mp h
    constructor
    · exact (congrArg Prod.fst h2).symm
    · have h4 : rest2 = rest := congrArg Prod.snd h2
      rw [← h4]
      have hs1 : rest2 <:+ '"' :: rest2 := List.suffix_cons '"' rest2
      rw [← hdrop] at hs1
      exact List.IsSuffix.trans
        (List.IsSuffix.trans hs1 (List.dropWhile_suffix _)) (List.drop_suffix _ _)
  · exact absurd h (by simp)

lemma tryFieldSpaceAt_some {lit repl l r rest : List Char}
    (h : tryFieldSpaceAt lit repl l = some (r, rest)) :
    r = lit ++ repl ∧ rest <:+ l := by
  unfold tryFieldSpaceAt at h
  dsimp only at h
  split at h
  · split at h
    · exact absurd h (by simp)
    · have h2 := Option.some_inj.mp h
      constructor
      · exact (congrArg Prod.fst h2).symm
      · have h4 : List.dropWhile (fun c => !isPySpace c) (List.drop lit.length l) =
            rest := congrArg Prod.snd h2
        rw [← h4]
        exact List.IsSuffix.trans (List.dropWhile_suffix _) (List.drop_suffix _ _)
  · exact absurd h (by simp)

lemma subLatest_preserves_noLink {nv : String} {t : VTuple}
    (hp : parse_version nv = some t) (l : List Char)
    (h : ¬ "    link:".data <:+: l) :
    ¬ "    link:".data <:+: pySubAll (tryLatestAt nv.data) l := by
  unfold pySubAll
  refine subAllAux_preserves_noP (tryLatestAt nv.data) ("    latest: \"".data)
    (by decide) ?_ (by decide) ?_ ?_ l.length l h
  · intro q hq hqP
    have hq2 : q ∈ "    link:".data.tails := (List.mem_tails _ _).mpr hqP
    have hall : ∀ q2 ∈ ("    link:".data).tails,
        q2 = [] ∨ ¬ q2 <+: "    latest: \"".data := by decide
    rcases hall q hq2 with h0 | h0
    · exact absurd h0 hq
    · exact h0
  · intro l2 r rest htry
    obtain ⟨hr, _⟩ := tryLatestAt_some htry
    subst hr
    refine ⟨⟨nv.data ++ ['"'], rfl⟩, ⟨'"', ?_, by decide⟩, ⟨'k', by decide, ?_⟩⟩
    · rw [getLast?_append_ne_nil (by simp)]
      exact List.getLast?_concat nv.data
    · intro hmem
      rcases List.mem_append.mp hmem with h1 | h1
      · exact absurd h1 (by decide)
      · rcases List.mem_append.mp h1 with h2 | h2
        · exact parseable_no_char hp (by decide) (by decide) (by decide)
            (by decide) (by decide) h2
        · simp only [List.mem_singleton] at h2
          exact absurd h2 (by decide)
  · intro l2 r rest htry
    exact (tryLatestAt_some htry).2

lemma digit_dash_not_in_linkPat {x : Char} (h : x.isDigit = true ∨ x = '-') :
    x ∉ "    link:".data := by
  intro hmem
  rcases h with h | h
  · have hall : ∀ c ∈ "    link:".data, c.isDigit = false := by decide
    rw [hall x hmem] at h
    exact Bool.noConfusion h
  · subst h
    exact absurd hmem (by decide)

lemma subDate_preserves_noLink {nd : String} (hne : nd.data ≠ [])
    (hch : ∀ c ∈ nd.data, c.isDigit = true ∨ c = '-') (l : List Char)
    (h : ¬ "    link:".data <:+: l) :
    ¬ "    link:".data <:+:
      pySubAll (tryFieldSpaceAt "    latestReleaseDate: ".data nd.data) l := by
  unfold pySubAll
  refine subAllAux_preserves_noP
    (tryFieldSpaceAt "    latestReleaseDate: ".data nd.data)
    ("    latestReleaseDate: ".data) (by decide) ?_ (by decide) ?_ ?_ l.length l h
  · intro q hq hqP
    have hq2 : q ∈ "    link:".data.tails := (List.mem_tails _ _).mpr hqP
    have hall : ∀ q2 ∈ ("    link:".data).tails,
        q2 = [] ∨ ¬ q2 <+: "    latestReleaseDate: ".data := by decide
    rcases hall q hq2 with h0 | h0
    · exact absurd h0 hq
    · exact h0
  · intro l2 r rest htry
    obtain ⟨hr, _⟩ := tryFieldSpaceAt_some htry
    subst hr
    refine ⟨⟨nd.data, rfl⟩, ⟨nd.data.getLast hne, ?_, ?_⟩, ⟨'k', by decide, ?_⟩⟩
    · rw [getLast?_append_ne_nil hne]
      exact List.getLast?_eq_getLast nd.data hne
    · exact digit_dash_not_in_linkPat (hch _ (List.getLast_mem hne))
    · intro hmem
      rcases List.mem_append.mp hmem with h1 | h1
      · exact absurd h1 (by decide)
      · rcases hch 'k' h1 with h2 | h2
        · exact absurd h2 (by decide)
        · exact absurd h2 (by decide)
  · intro l2 r rest htry
    exact (tryFieldSpaceAt_some htry).2

/-- C6: when the patcher rewrites a block for a new version `nv` (a
parseable version string) and a loader date `nd` (digits and dashes), the
`link` substitution runs only if a URL was built and the text after the
`latest`/`latestReleaseDate` substitutions contains `    link:`; otherwise
the block is exactly the result of the two other substitutions, and a block
whose text lacks a `    link:` field yields rewritten text that still lacks
it — a `link` field is never added. -/
theorem C6_link_never_added :
    ∀ (block nv nd : String) (nu : Option String) (t : VTuple),
      parse_version nv = some t →
      nd.data ≠ [] →
      (∀ c ∈ nd.data, c.isDigit = true ∨ c = '-') →
      ((¬ "    link:".data <:+: block.data →
        ¬ "    link:".data <:+: (rewrite_block block nv nd nu).data)
      ∧ rewrite_block block nv nd none =
          String.mk (pySubAll (tryFieldSpaceAt "    latestReleaseDate: ".data nd.data)
            (pySubAll (tryLatestAt nv.data) block.data))
      ∧ (∀ url : String, nu = some url →
          ¬ "    link:".data <:+:
            pySubAll (tryFieldSpaceAt "    latestReleaseDate: ".data nd.data)
              (pySubAll (tryLatestAt nv.data) block.data) →
          rewrite_block block nv nd nu =
            String.mk (pySubAll (tryFieldSpaceAt "    latestReleaseDate: ".data nd.data)
              (pySubAll (tryLatestAt nv.data) block.data)))) := by
  intro block nv nd nu t hp hne hch
  have hb2 : ¬ "    link:".data <:+: block.data →
      ¬ "    link:".data <:+:
        pySubAll (tryFieldSpaceAt "    latestReleaseDate: ".data nd.data)
          (pySubAll (tryLatestAt nv.data) block.data) :=
    fun h => subDate_preserves_noLink hne hch _ (subLatest_preserves_noLink hp _ h)
  refine ⟨?_, rfl, ?_⟩
  · intro h
    have h2 := hb2 h
    unfold rewrite_block
    dsimp only
    cases nu with
    | none => exact h2
    | some url =>
      dsimp only
      rw [if_neg h2]
      exact h2
  · intro url hu h2
    subst hu
    unfold rewrite_block
    dsimp only
    rw [if_neg h2]

set_option maxRecDepth 8000 in
/-- Witness for C6: a block with `latest` and `latestReleaseDate` fields but
no `link` field, rewritten with a buildable URL, still has no `link` field. -/
theorem C6_link_never_added_witness :
    ¬ "    link:".data <:+:
      (rewrite_block
        "  - releaseCycle: \"10.1\"\n    latest: \"10.1.2\"\n    latestReleaseDate: 2025-01-01"
        "10.1.5" "2026-02-04" (some "https://example.test/u")).data :=
  (C6_link_never_added
    "  - releaseCycle: \"10.1\"\n    latest: \"10.1.2\"\n    latestReleaseDate: 2025-01-01"
    "10.1.5" "2026-02-04" (some "https://example.test/u") (10, 1, 5, 0)
    (by decide) (by decide) (by decide)).1 (by decide)

end PanosVersions
